import Mathlib

/-!
Verification development for the JoyCoin_WebSite repository.

The repository holds the Next.js frontend of a token-purchase site: users
submit USDT deposit requests which administrators approve or reject, and an
approval credits the owner's JOY balance.  The backend that persists deposit
requests is not part of the repository (only its API callers and the two
API guides are), so the deposit workflow itself is modelled here from the
specification, while every frontend computation (admin dashboard approve
handler, email masking, client-side validation, buy-page totals, chain
option lists) is embedded directly from the TypeScript source.

Amounts are modelled as rationals, statuses as strings (the backend wire
format uses the strings "pending" / "approved" / "rejected").
-/

/-- A deposit request row, following the `DepositRequest` data model of the
spec (§3) and the `DepositRequestOut` shape of the repository's API guide:
id, owning user, chain, assigned address, expected and actual USDT amounts,
frozen JOY allocation, status string, reviewing admin and notes. -/
structure DepositRequest where
  id : Nat
  userId : Nat
  chain : String
  assigned_address : String
  expected_amount : ℚ
  actual_amount : Option ℚ
  joy_amount : ℚ
  status : String
  admin_id : Option Nat
  admin_notes : Option String
  deriving Repr, DecidableEq

/-- Backend-side state: the deposit_requests table and each user's
`total_joy` balance (indexed by user id). -/
structure SysState where
  deposits : List DepositRequest
  totalJoyOf : Nat → ℚ

/-- Look a deposit request up by id (first row with that id). -/
def findDeposit (st : SysState) (i : Nat) : Option DepositRequest :=
  st.deposits.find? (fun d => d.id == i)

/-- The row persisted for a fresh deposit request: status `pending`,
`expected_amount` the submitted total, `joy_amount` frozen at creation as
`totalUsdt * joyPerUsdt`, no actual amount, admin or notes yet. -/
def newDepositRow (newId userId : Nat) (chain : String)
    (totalUsdt joyPerUsdt : ℚ) (addr : String) : DepositRequest :=
  { id := newId, userId := userId, chain := chain, assigned_address := addr,
    expected_amount := totalUsdt, actual_amount := none,
    joy_amount := totalUsdt * joyPerUsdt, status := "pending",
    admin_id := none, admin_notes := none }

/-- Modelled from the spec: `createDepositRequest(userId, chain, totalUsdt)`
(§4.3) of the absent backend.  Precondition `totalUsdt > 0` and a configured
positive exchange rate; persists a new record with status `pending`,
`joy_amount = totalUsdt * joy_per_usdt` frozen at creation,
`expected_amount = totalUsdt`, `actual_amount` unset, and the environment's
receiving address. -/
def createDepositRequest (st : SysState) (newId userId : Nat) (chain : String)
    (totalUsdt joyPerUsdt : ℚ) (addr : String) :
    Except String (SysState × DepositRequest) :=
  if totalUsdt ≤ 0 then .error "ValidationError"
  else if joyPerUsdt ≤ 0 then .error "NotConfiguredError"
  else
    let d := newDepositRow newId userId chain totalUsdt joyPerUsdt addr
    .ok ({ st with deposits := st.deposits ++ [d] }, d)

/-- Replace every row carrying the given id by the given new row. -/
def updateRow (l : List DepositRequest) (i : Nat) (d2 : DepositRequest) :
    List DepositRequest :=
  l.map fun x => if x.id == i then d2 else x

/-- The approved version of a row: status `approved`, `actual_amount`
defaulting to `expected_amount` when the admin supplies no override, the
acting admin and the notes recorded. -/
def approvedVersion (d : DepositRequest) (actualAmount : Option ℚ)
    (notes : Option String) (adminId : Nat) : DepositRequest :=
  { d with status := "approved",
           actual_amount := some (actualAmount.getD d.expected_amount),
           admin_id := some adminId, admin_notes := notes }

/-- Modelled from the spec: `approveDepositRequest(id, actualAmount?,
adminNotes?, actingAdminId)` (§4.3) of the absent backend.  Requires the row
to exist with status `pending` (otherwise `InvalidStateError`), updates it to
its approved version and credits the owner's `total_joy` by the row's frozen
`joy_amount`. -/
def approveDepositRequest (st : SysState) (i : Nat) (actualAmount : Option ℚ)
    (notes : Option String) (adminId : Nat) : Except String SysState :=
  match findDeposit st i with
  | none => .error "NotFoundError"
  | some d =>
    if d.status = "pending" then
      let newDeposits := updateRow st.deposits i (approvedVersion d actualAmount notes adminId)
      let newBalance := fun u =>
        if u = d.userId then st.totalJoyOf u + d.joy_amount else st.totalJoyOf u
      .ok { deposits := newDeposits, totalJoyOf := newBalance }
    else .error "InvalidStateError"

/-- The rejected version of a row: status `rejected`, admin and notes
recorded, amounts untouched. -/
def rejectedVersion (d : DepositRequest) (notes : Option String)
    (adminId : Nat) : DepositRequest :=
  { d with status := "rejected", admin_id := some adminId, admin_notes := notes }

/-- Modelled from the spec: `rejectDepositRequest(id, adminNotes,
actingAdminId)` (§4.3) of the absent backend.  Requires status `pending`
(otherwise `InvalidStateError`), updates the row to its rejected version and
mutates no balance. -/
def rejectDepositRequest (st : SysState) (i : Nat) (notes : Option String)
    (adminId : Nat) : Except String SysState :=
  match findDeposit st i with
  | none => .error "NotFoundError"
  | some d =>
    if d.status = "pending" then
      let newDeposits := updateRow st.deposits i (rejectedVersion d notes adminId)
      .ok { st with deposits := newDeposits }
    else .error "InvalidStateError"

/-- The operations of the deposit workflow, for reasoning about traces. -/
inductive Op where
  | create (newId userId : Nat) (chain : String) (totalUsdt joyPerUsdt : ℚ) (addr : String)
  | approve (i : Nat) (actualAmount : Option ℚ) (notes : Option String) (adminId : Nat)
  | reject (i : Nat) (notes : Option String) (adminId : Nat)

/-- Apply one operation; a failing operation leaves the state unchanged. -/
def applyOp (st : SysState) : Op → SysState
  | .create n u c t j a =>
    match createDepositRequest st n u c t j a with
    | .ok p => p.1
    | .error _ => st
  | .approve i amt nt ad =>
    match approveDepositRequest st i amt nt ad with
    | .ok st2 => st2
    | .error _ => st
  | .reject i nt ad =>
    match rejectDepositRequest st i nt ad with
    | .ok st2 => st2
    | .error _ => st

/-- Run a list of operations in order. -/
def runOps (st : SysState) (ops : List Op) : SysState := ops.foldl applyOp st

/-- The empty system: no deposits, every balance zero. -/
def initState : SysState := { deposits := [], totalJoyOf := fun _ => 0 }

/-- The status of the row with a given id, if any. -/
def statusOf (st : SysState) (i : Nat) : Option String :=
  (findDeposit st i).map (·.status)

/-- Every deposit row carries a nonnegative JOY allocation. -/
def joyInv (st : SysState) : Prop := ∀ d ∈ st.deposits, 0 ≤ d.joy_amount

/-- Every deposit row carries one of the three backend statuses. -/
def statusInv (st : SysState) : Prop :=
  ∀ d ∈ st.deposits,
    d.status = "pending" ∨ d.status = "approved" ∨ d.status = "rejected"

/- ## List-level helper lemmas -/

lemma find?_updateRow (l : List DepositRequest) (tid : Nat) (d2 : DepositRequest)
    (h2 : d2.id = tid) (i : Nat) :
    (updateRow l tid d2).find? (fun x => x.id == i)
      = if i = tid then (l.find? (fun x => x.id == tid)).map (fun _ => d2)
        else l.find? (fun x => x.id == i) := by
  unfold updateRow
  induction l with
  | nil => by_cases h : i = tid <;> simp [h]
  | cons a l ih =>
    rw [List.map_cons]
    by_cases ha : a.id = tid
    · have hhead : (if a.id == tid then d2 else a) = d2 := by simp [ha]
      rw [hhead]
      by_cases hi : i = tid
      · subst hi
        have e1 : (d2.id == i) = true := by simp [h2]
        have e2 : (a.id == i) = true := by simp [ha]
        simp [List.find?_cons, e1, e2]
      · have e1 : (d2.id == i) = false := by
          simp [h2]; exact fun h => hi h.symm
        have e2 : (a.id == i) = false := by
          simp [ha]; exact fun h => hi h.symm
        simp only [List.find?_cons, e1, e2, cond_false]
        rw [ih]
        simp [hi]
    · have hhead : (if a.id == tid then d2 else a) = a := by simp [ha]
      rw [hhead]
      by_cases hi : i = tid
      · subst hi
        have e2 : (a.id == i) = false := by simp [ha]
        simp only [List.find?_cons, e2, cond_false]
        rw [ih]
        simp
      · by_cases hai : a.id = i
        · have e2 : (a.id == i) = true := by simp [hai]
          simp only [List.find?_cons, e2, cond_true]
          simp [hi]
        · have e2 : (a.id == i) = false := by simp [hai]
          simp only [List.find?_cons, e2, cond_false]
          rw [ih]
          simp [hi]

lemma find?_mem_id (l : List DepositRequest) (i : Nat) (d : DepositRequest)
    (h : l.find? (fun x => x.id == i) = some d) : d.id = i := by
  have := List.find?_some h
  simpa using this

/- ## Inversion lemmas for the three operations -/

lemma create_ok_elim {st : SysState} {n u : Nat} {c : String} {t j : ℚ} {a : String}
    {p : SysState × DepositRequest}
    (h : createDepositRequest st n u c t j a = .ok p) :
    0 < t ∧ 0 < j ∧
      p = ({ st with deposits := st.deposits ++ [newDepositRow n u c t j a] },
           newDepositRow n u c t j a) := by
  unfold createDepositRequest at h
  by_cases ht : t ≤ 0
  · rw [if_pos ht] at h; cases h
  · rw [if_neg ht] at h
    by_cases hj : j ≤ 0
    · rw [if_pos hj] at h; cases h
    · rw [if_neg hj] at h
      simp only [Except.ok.injEq] at h
      exact ⟨lt_of_not_le ht, lt_of_not_le hj, h.symm⟩

lemma create_error_elim {st : SysState} {n u : Nat} {c : String} {t j : ℚ} {a : String}
    {e : String} (h : createDepositRequest st n u c t j a = .error e) :
    t ≤ 0 ∨ j ≤ 0 := by
  unfold createDepositRequest at h
  by_cases ht : t ≤ 0
  · exact Or.inl ht
  · rw [if_neg ht] at h
    by_cases hj : j ≤ 0
    · exact Or.inr hj
    · rw [if_neg hj] at h; cases h

lemma approve_ok_elim {st : SysState} {i : Nat} {amt : Option ℚ} {nt : Option String}
    {ad : Nat} {st2 : SysState}
    (h : approveDepositRequest st i amt nt ad = .ok st2) :
    ∃ d, findDeposit st i = some d ∧ d.status = "pending" ∧
      st2 = { deposits := updateRow st.deposits i (approvedVersion d amt nt ad),
              totalJoyOf := fun u =>
                if u = d.userId then st.totalJoyOf u + d.joy_amount
                else st.totalJoyOf u } := by
  unfold approveDepositRequest at h
  cases hf : findDeposit st i with
  | none => rw [hf] at h; cases h
  | some d =>
    rw [hf] at h
    dsimp only at h
    by_cases hs : d.status = "pending"
    · rw [if_pos hs] at h
      simp only [Except.ok.injEq] at h
      exact ⟨d, rfl, hs, h.symm⟩
    · rw [if_neg hs] at h; cases h

lemma approve_not_pending {st : SysState} {i : Nat} (amt : Option ℚ)
    (nt : Option String) (ad : Nat) {d : DepositRequest}
    (hf : findDeposit st i = some d) (hs : d.status ≠ "pending") :
    approveDepositRequest st i amt nt ad = .error "InvalidStateError" := by
  unfold approveDepositRequest
  rw [hf]
  dsimp only
  rw [if_neg hs]

lemma reject_ok_elim {st : SysState} {i : Nat} {nt : Option String}
    {ad : Nat} {st2 : SysState}
    (h : rejectDepositRequest st i nt ad = .ok st2) :
    ∃ d, findDeposit st i = some d ∧ d.status = "pending" ∧
      st2 = { st with
              deposits := updateRow st.deposits i (rejectedVersion d nt ad) } := by
  unfold rejectDepositRequest at h
  cases hf : findDeposit st i with
  | none => rw [hf] at h; cases h
  | some d =>
    rw [hf] at h
    dsimp only at h
    by_cases hs : d.status = "pending"
    · rw [if_pos hs] at h
      simp only [Except.ok.injEq] at h
      exact ⟨d, rfl, hs, h.symm⟩
    · rw [if_neg hs] at h; cases h

lemma reject_not_pending {st : SysState} {i : Nat} (nt : Option String)
    (ad : Nat) {d : DepositRequest}
    (hf : findDeposit st i = some d) (hs : d.status ≠ "pending") :
    rejectDepositRequest st i nt ad = .error "InvalidStateError" := by
  unfold rejectDepositRequest
  rw [hf]
  dsimp only
  rw [if_neg hs]

lemma create_ok_of_pos (st : SysState) (n u : Nat) (c : String) (t j : ℚ)
    (a : String) (ht : 0 < t) (hj : 0 < j) :
    createDepositRequest st n u c t j a
      = .ok ({ st with deposits := st.deposits ++ [newDepositRow n u c t j a] },
             newDepositRow n u c t j a) := by
  unfold createDepositRequest
  rw [if_neg (not_le.mpr ht), if_neg (not_le.mpr hj)]

/-- C2: a deposit request submitted with a positive `totalUsdt` while the
active rate is `joyPerUsdt` yields a record with status `pending` and
`joy_amount = totalUsdt * joyPerUsdt`, the expected amount being the
submitted total and the actual amount still unset. -/
theorem claim_C2_create_freezes_joy_amount
    (st : SysState) (newId userId : Nat) (chain : String)
    (totalUsdt joyPerUsdt : ℚ) (addr : String)
    (hpos : 0 < totalUsdt) (hrate : 0 < joyPerUsdt) :
    ∃ st2 d, createDepositRequest st newId userId chain totalUsdt joyPerUsdt addr
        = .ok (st2, d)
      ∧ d.status = "pending" ∧ d.joy_amount = totalUsdt * joyPerUsdt
      ∧ d.expected_amount = totalUsdt ∧ d.actual_amount = none := by
  exact ⟨_, _, create_ok_of_pos st newId userId chain totalUsdt joyPerUsdt addr
    hpos hrate, rfl, rfl, rfl, rfl⟩

/-- Witness for C2 at the spec's concrete scenario: a 200 USDT request at
rate 5 JOY/USDT yields a pending record with `joy_amount = 1000`. -/
theorem claim_C2_witness :
    ∃ st2 d, createDepositRequest initState 3 5 "TRC20" 200 5 "TAdminAddr"
        = .ok (st2, d)
      ∧ d.status = "pending" ∧ d.joy_amount = 1000 := by
  obtain ⟨st2, d, h1, h2, h3, -, -⟩ :=
    claim_C2_create_freezes_joy_amount initState 3 5 "TRC20" 200 5 "TAdminAddr"
      (by norm_num) (by norm_num)
  exact ⟨st2, d, h1, h2, by rw [h3]; norm_num⟩

/-- C4: approving a pending deposit request with no `actual_amount` override
succeeds, the stored row becomes its approved version whose `actual_amount`
equals its `expected_amount` and whose status is `approved`, and the owning
user's `total_joy` increases by exactly the request's `joy_amount`. -/
theorem claim_C4_approve_defaults_actual_and_credits
    (st : SysState) (i : Nat) (notes : Option String) (adminId : Nat)
    (d : DepositRequest)
    (hf : findDeposit st i = some d) (hp : d.status = "pending") :
    ∃ st2, approveDepositRequest st i none notes adminId = .ok st2
      ∧ findDeposit st2 i = some (approvedVersion d none notes adminId)
      ∧ (approvedVersion d none notes adminId).actual_amount = some d.expected_amount
      ∧ (approvedVersion d none notes adminId).status = "approved"
      ∧ st2.totalJoyOf d.userId = st.totalJoyOf d.userId + d.joy_amount := by
  have hid : d.id = i := find?_mem_id _ _ _ hf
  refine ⟨{ deposits := updateRow st.deposits i (approvedVersion d none notes adminId),
            totalJoyOf := fun u =>
              if u = d.userId then st.totalJoyOf u + d.joy_amount
              else st.totalJoyOf u }, ?_, ?_, rfl, rfl, by simp⟩
  · unfold approveDepositRequest
    rw [hf]
    dsimp only
    rw [if_pos hp]
  · show (updateRow st.deposits i (approvedVersion d none notes adminId)).find?
        (fun x => x.id == i) = some (approvedVersion d none notes adminId)
    rw [find?_updateRow st.deposits i _ (by simpa [approvedVersion] using hid) i,
      if_pos rfl]
    unfold findDeposit at hf
    rw [hf]
    rfl

/-- Concrete pending row echoing the spec's scenario 2: request number 3 of
user 5 expecting 200 USDT for 1000 JOY. -/
def pendingRowEx : DepositRequest :=
  { id := 3, userId := 5, chain := "TRC20", assigned_address := "TAdminAddr",
    expected_amount := 200, actual_amount := none, joy_amount := 1000,
    status := "pending", admin_id := none, admin_notes := none }

/-- Concrete one-row system holding `pendingRowEx`, every balance zero. -/
def sysStateEx : SysState :=
  { deposits := [pendingRowEx], totalJoyOf := fun _ => 0 }

/-- Witness for C4: approving the concrete pending request with no override
by admin 7 stores actual amount 200, status approved, and credits user 5's
balance from 0 to 1000. -/
theorem claim_C4_witness :
    ∃ st2, approveDepositRequest sysStateEx 3 none none 7 = .ok st2
      ∧ (approvedVersion pendingRowEx none none 7).actual_amount = some 200
      ∧ (approvedVersion pendingRowEx none none 7).status = "approved"
      ∧ st2.totalJoyOf 5 = 1000 := by
  obtain ⟨st2, h1, -, h3, h4, h5⟩ :=
    claim_C4_approve_defaults_actual_and_credits sysStateEx 3 none 7 pendingRowEx
      (by rfl) (by rfl)
  refine ⟨st2, h1, h3, h4, ?_⟩
  have h5' : st2.totalJoyOf 5 = sysStateEx.totalJoyOf 5 + 1000 := h5
  rw [h5']
  norm_num [sysStateEx]

/- ## Invariant preservation and trace lemmas -/

lemma statusInv_applyOp {st : SysState} (op : Op) (h : statusInv st) :
    statusInv (applyOp st op) := by
  cases op with
  | create n u c t j a =>
    cases hres : createDepositRequest st n u c t j a with
    | error e => simpa only [applyOp, hres] using h
    | ok p =>
      simp only [applyOp, hres]
      obtain ⟨-, -, hp⟩ := create_ok_elim hres
      subst hp
      intro d hd
      rcases List.mem_append.mp hd with hd | hd
      · exact h d hd
      · rcases List.mem_singleton.mp hd with rfl
        exact Or.inl rfl
  | approve i amt nt ad =>
    cases hres : approveDepositRequest st i amt nt ad with
    | error e => simpa only [applyOp, hres] using h
    | ok st2 =>
      simp only [applyOp, hres]
      obtain ⟨d, hf, hp, hst2⟩ := approve_ok_elim hres
      subst hst2
      intro x hx
      obtain ⟨y, hy, hxy⟩ := List.mem_map.mp hx
      by_cases hyi : (y.id == i) = true
      · rw [if_pos hyi] at hxy
        subst hxy
        exact Or.inr (Or.inl rfl)
      · rw [if_neg hyi] at hxy
        subst hxy
        exact h y hy
  | reject i nt ad =>
    cases hres : rejectDepositRequest st i nt ad with
    | error e => simpa only [applyOp, hres] using h
    | ok st2 =>
      simp only [applyOp, hres]
      obtain ⟨d, hf, hp, hst2⟩ := reject_ok_elim hres
      subst hst2
      intro x hx
      obtain ⟨y, hy, hxy⟩ := List.mem_map.mp hx
      by_cases hyi : (y.id == i) = true
      · rw [if_pos hyi] at hxy
        subst hxy
        exact Or.inr (Or.inr rfl)
      · rw [if_neg hyi] at hxy
        subst hxy
        exact h y hy

lemma joyInv_applyOp {st : SysState} (op : Op) (h : joyInv st) :
    joyInv (applyOp st op) := by
  cases op with
  | create n u c t j a =>
    cases hres : createDepositRequest st n u c t j a with
    | error e => simpa only [applyOp, hres] using h
    | ok p =>
      simp only [applyOp, hres]
      obtain ⟨ht, hj, hp⟩ := create_ok_elim hres
      subst hp
      intro d hd
      rcases List.mem_append.mp hd with hd | hd
      · exact h d hd
      · rcases List.mem_singleton.mp hd with rfl
        exact le_of_lt (mul_pos ht hj)
  | approve i amt nt ad =>
    cases hres : approveDepositRequest st i amt nt ad with
    | error e => simpa only [applyOp, hres] using h
    | ok st2 =>
      simp only [applyOp, hres]
      obtain ⟨d, hf, hp, hst2⟩ := approve_ok_elim hres
      subst hst2
      intro x hx
      obtain ⟨y, hy, hxy⟩ := List.mem_map.mp hx
      by_cases hyi : (y.id == i) = true
      · rw [if_pos hyi] at hxy
        subst hxy
        exact h d (List.mem_of_find?_eq_some hf)
      · rw [if_neg hyi] at hxy
        subst hxy
        exact h y hy
  | reject i nt ad =>
    cases hres : rejectDepositRequest st i nt ad with
    | error e => simpa only [applyOp, hres] using h
    | ok st2 =>
      simp only [applyOp, hres]
      obtain ⟨d, hf, hp, hst2⟩ := reject_ok_elim hres
      subst hst2
      intro x hx
      obtain ⟨y, hy, hxy⟩ := List.mem_map.mp hx
      by_cases hyi : (y.id == i) = true
      · rw [if_pos hyi] at hxy
        subst hxy
        exact h d (List.mem_of_find?_eq_some hf)
      · rw [if_neg hyi] at hxy
        subst hxy
        exact h y hy

lemma joyInv_init : joyInv initState := by
  intro d hd
  cases hd

lemma statusInv_init : statusInv initState := by
  intro d hd
  cases hd

lemma runOps_cons (st : SysState) (op : Op) (ops : List Op) :
    runOps st (op :: ops) = runOps (applyOp st op) ops := rfl

lemma runOps_append (st : SysState) (ops extra : List Op) :
    runOps st (ops ++ extra) = runOps (runOps st ops) extra := by
  simp [runOps, List.foldl_append]

lemma joyInv_runOps (ops : List Op) {st : SysState} (h : joyInv st) :
    joyInv (runOps st ops) := by
  induction ops generalizing st with
  | nil => exact h
  | cons op ops ih =>
    rw [runOps_cons]
    exact ih (joyInv_applyOp op h)

lemma statusInv_runOps (ops : List Op) {st : SysState} (h : statusInv st) :
    statusInv (runOps st ops) := by
  induction ops generalizing st with
  | nil => exact h
  | cons op ops ih =>
    rw [runOps_cons]
    exact ih (statusInv_applyOp op h)

lemma totalJoyOf_applyOp_mono {st : SysState} (op : Op) (u : Nat)
    (h : joyInv st) : st.totalJoyOf u ≤ (applyOp st op).totalJoyOf u := by
  cases op with
  | create n u' c t j a =>
    cases hres : createDepositRequest st n u' c t j a with
    | error e => simp only [applyOp, hres]; exact le_refl _
    | ok p =>
      simp only [applyOp, hres]
      obtain ⟨-, -, hp⟩ := create_ok_elim hres
      subst hp
      exact le_refl _
  | approve i amt nt ad =>
    cases hres : approveDepositRequest st i amt nt ad with
    | error e => simp only [applyOp, hres]; exact le_refl _
    | ok st2 =>
      simp only [applyOp, hres]
      obtain ⟨d, hf, hp, hst2⟩ := approve_ok_elim hres
      subst hst2
      by_cases hu : u = d.userId
      · have h0 : 0 ≤ d.joy_amount := h d (List.mem_of_find?_eq_some hf)
        simp [hu]
        linarith
      · simp only [if_neg hu]
        exact le_refl _
  | reject i nt ad =>
    cases hres : rejectDepositRequest st i nt ad with
    | error e => simp only [applyOp, hres]; exact le_refl _
    | ok st2 =>
      simp only [applyOp, hres]
      obtain ⟨d, hf, hp, hst2⟩ := reject_ok_elim hres
      subst hst2
      exact le_refl _

lemma totalJoyOf_runOps_mono (ops : List Op) {st : SysState} (u : Nat)
    (h : joyInv st) : st.totalJoyOf u ≤ (runOps st ops).totalJoyOf u := by
  induction ops generalizing st with
  | nil => exact le_refl _
  | cons op ops ih =>
    rw [runOps_cons]
    exact le_trans (totalJoyOf_applyOp_mono op u h) (ih (joyInv_applyOp op h))

lemma totalJoyOf_change (st : SysState) (op : Op) (u : Nat) :
    (applyOp st op).totalJoyOf u = st.totalJoyOf u
    ∨ ∃ i amt nt ad d, op = Op.approve i amt nt ad
        ∧ findDeposit st i = some d ∧ d.userId = u ∧ d.status = "pending"
        ∧ (applyOp st op).totalJoyOf u = st.totalJoyOf u + d.joy_amount := by
  cases op with
  | create n u' c t j a =>
    left
    cases hres : createDepositRequest st n u' c t j a with
    | error e => simp only [applyOp, hres]
    | ok p =>
      simp only [applyOp, hres]
      obtain ⟨-, -, hp⟩ := create_ok_elim hres
      subst hp
      rfl
  | approve i amt nt ad =>
    cases hres : approveDepositRequest st i amt nt ad with
    | error e => left; simp only [applyOp, hres]
    | ok st2 =>
      obtain ⟨d, hf, hp, hst2⟩ := approve_ok_elim hres
      by_cases hu : u = d.userId
      · right
        refine ⟨i, amt, nt, ad, d, rfl, hf, hu.symm, hp, ?_⟩
        simp only [applyOp, hres]
        subst hst2
        simp [hu]
      · left
        simp only [applyOp, hres]
        subst hst2
        simp [hu]
  | reject i nt ad =>
    left
    cases hres : rejectDepositRequest st i nt ad with
    | error e => simp only [applyOp, hres]
    | ok st2 =>
      simp only [applyOp, hres]
      obtain ⟨d, hf, hp, hst2⟩ := reject_ok_elim hres
      subst hst2
      rfl

lemma statusOf_applyOp (st : SysState) (op : Op) (i : Nat) :
    statusOf (applyOp st op) i = statusOf st i
    ∨ (statusOf st i = some "pending"
        ∧ (statusOf (applyOp st op) i = some "approved"
            ∨ statusOf (applyOp st op) i = some "rejected"))
    ∨ (statusOf st i = none ∧ statusOf (applyOp st op) i = some "pending") := by
  cases op with
  | create n u c t j a =>
    cases hres : createDepositRequest st n u c t j a with
    | error e => left; simp only [applyOp, hres]
    | ok p =>
      obtain ⟨-, -, hp⟩ := create_ok_elim hres
      have hdep : (applyOp st (Op.create n u c t j a)).deposits
          = st.deposits ++ [newDepositRow n u c t j a] := by
        simp only [applyOp, hres]
        rw [hp]
      unfold statusOf findDeposit
      rw [hdep, List.find?_append]
      cases hfl : st.deposits.find? (fun d => d.id == i) with
      | some d => exact Or.inl rfl
      | none =>
        by_cases hni : n = i
        · refine Or.inr (Or.inr ⟨rfl, ?_⟩)
          have e1 : (n == i) = true := by simp [hni]
          simp [List.find?_cons, e1, newDepositRow]
        · refine Or.inl ?_
          have e1 : (n == i) = false := by simp [hni]
          simp [List.find?_cons, e1, newDepositRow]
  | approve i0 amt nt ad =>
    cases hres : approveDepositRequest st i0 amt nt ad with
    | error e => left; simp only [applyOp, hres]
    | ok st2 =>
      obtain ⟨d, hf, hp, hst2⟩ := approve_ok_elim hres
      have hid : d.id = i0 := find?_mem_id _ _ _ hf
      have hdep : (applyOp st (Op.approve i0 amt nt ad)).deposits
          = updateRow st.deposits i0 (approvedVersion d amt nt ad) := by
        simp only [applyOp, hres]
        rw [hst2]
      by_cases hii : i = i0
      · subst hii
        refine Or.inr (Or.inl ⟨by unfold statusOf; rw [hf]; simp [hp], Or.inl ?_⟩)
        unfold statusOf findDeposit
        rw [hdep]
        rw [find?_updateRow st.deposits i _ (by simpa [approvedVersion] using hid) i,
          if_pos rfl]
        unfold findDeposit at hf
        rw [hf]
        rfl
      · refine Or.inl ?_
        unfold statusOf findDeposit
        rw [hdep]
        rw [find?_updateRow st.deposits i0 _ (by simpa [approvedVersion] using hid) i,
          if_neg hii]
  | reject i0 nt ad =>
    cases hres : rejectDepositRequest st i0 nt ad with
    | error e => left; simp only [applyOp, hres]
    | ok st2 =>
      obtain ⟨d, hf, hp, hst2⟩ := reject_ok_elim hres
      have hid : d.id = i0 := find?_mem_id _ _ _ hf
      have hdep : (applyOp st (Op.reject i0 nt ad)).deposits
          = updateRow st.deposits i0 (rejectedVersion d nt ad) := by
        simp only [applyOp, hres]
        rw [hst2]
      by_cases hii : i = i0
      · subst hii
        refine Or.inr (Or.inl ⟨by unfold statusOf; rw [hf]; simp [hp], Or.inr ?_⟩)
        unfold statusOf findDeposit
        rw [hdep]
        rw [find?_updateRow st.deposits i _ (by simpa [rejectedVersion] using hid) i,
          if_pos rfl]
        unfold findDeposit at hf
        rw [hf]
        rfl
      · refine Or.inl ?_
        unfold statusOf findDeposit
        rw [hdep]
        rw [find?_updateRow st.deposits i0 _ (by simpa [rejectedVersion] using hid) i,
          if_neg hii]

/- ## Variant-1 admin dashboard (sector management) -/

/-- A row of the requests state in the variant-1 admin dashboard, as consumed
from GET /admin/requests: user email, target sector, deposited power in USDT
and a status string. -/
structure AdminRequest where
  id : Nat
  user : String
  sector : String
  power : ℚ
  status : String
  deriving Repr, DecidableEq

/-- Embeds the setRequests state update inside handleApprove of the variant-1
admin dashboard: every request whose id matches gets its status set to the
string "active"; the current status is not consulted. -/
def handleApprove (reqs : List AdminRequest) (i : Nat) : List AdminRequest :=
  reqs.map fun r => if r.id == i then { r with status := "active" } else r

/-- A concrete pending activation request. -/
def pendingAdminReq : AdminRequest :=
  { id := 1, user := "abcdef@test.com", sector := "Sector B", power := 50,
    status := "pending" }

/-- A concrete activation request already in the terminal status approved. -/
def approvedAdminReq : AdminRequest :=
  { id := 2, user := "user@test.com", sector := "Sector A", power := 100,
    status := "approved" }

/-- C1 counterexample: the claim fails on the in-repository approve handler.
Approving pending request 1 sets its status to "active", which is outside
the set of pending, approved and rejected, and the same handler applied to
the already approved request 2 overwrites its terminal status as well. -/
theorem claim_C1_counterexample :
    handleApprove [pendingAdminReq] 1
        = [{ pendingAdminReq with status := "active" }]
    ∧ handleApprove [approvedAdminReq] 2
        = [{ approvedAdminReq with status := "active" }]
    ∧ approvedAdminReq.status = "approved"
    ∧ ¬ ("active" = "pending" ∨ "active" = "approved" ∨ "active" = "rejected") := by
  refine ⟨rfl, rfl, rfl, ?_⟩
  decide

/-- C1 (amended): in the modelled backend workflow every reachable deposit
status lies in the set of pending, approved and rejected; one operation moves
a row's status only along pending to approved or pending to rejected (or
creates a fresh pending row); approving or rejecting a non-pending row fails
with InvalidStateError; the variant-1 dashboard's local handleApprove,
however, sets the status of every matching request to "active" regardless of
its current status. -/
theorem claim_C1_status_machine :
    (∀ ops : List Op, statusInv (runOps initState ops))
    ∧ (∀ (st : SysState) (op : Op) (i : Nat),
        statusOf (applyOp st op) i = statusOf st i
        ∨ (statusOf st i = some "pending"
            ∧ (statusOf (applyOp st op) i = some "approved"
                ∨ statusOf (applyOp st op) i = some "rejected"))
        ∨ (statusOf st i = none ∧ statusOf (applyOp st op) i = some "pending"))
    ∧ (∀ (st : SysState) (i : Nat) (amt : Option ℚ) (nt : Option String)
        (ad : Nat) (d : DepositRequest),
        findDeposit st i = some d → d.status ≠ "pending" →
          approveDepositRequest st i amt nt ad = .error "InvalidStateError"
          ∧ rejectDepositRequest st i nt ad = .error "InvalidStateError")
    ∧ (∀ (reqs : List AdminRequest) (i : Nat) (r : AdminRequest),
        r ∈ reqs → r.id = i →
          { r with status := "active" } ∈ handleApprove reqs i)
    ∧ (∀ (reqs : List AdminRequest) (i : Nat) (r2 : AdminRequest),
        r2 ∈ handleApprove reqs i →
          r2.status = "active" ∨ (r2 ∈ reqs ∧ r2.id ≠ i)) := by
  refine ⟨?_, ?_, ?_, ?_, ?_⟩
  · intro ops
    exact statusInv_runOps ops statusInv_init
  · intro st op i
    exact statusOf_applyOp st op i
  · intro st i amt nt ad d hf hs
    exact ⟨approve_not_pending amt nt ad hf hs, reject_not_pending nt ad hf hs⟩
  · intro reqs i r hr hri
    have : (fun r : AdminRequest =>
        if r.id == i then { r with status := "active" } else r) r
        = { r with status := "active" } := by
      simp [hri]
    exact this ▸ List.mem_map_of_mem _ hr
  · intro reqs i r2 h2
    obtain ⟨r, hr, hrr⟩ := List.mem_map.mp h2
    by_cases hri : (r.id == i) = true
    · rw [if_pos hri] at hrr
      subst hrr
      exact Or.inl rfl
    · rw [if_neg hri] at hrr
      subst hrr
      refine Or.inr ⟨hr, ?_⟩
      simpa using hri

/-- C3: along every trace of the modelled workflow starting from the empty
system, each user's total_joy is monotonically non-decreasing, and a single
operation changes a user's total_joy only when it is the approval of one of
that user's pending deposit requests, the change being exactly that request's
frozen joy_amount. -/
theorem claim_C3_total_joy_monotone :
    (∀ (ops extra : List Op) (u : Nat),
        (runOps initState ops).totalJoyOf u
          ≤ (runOps initState (ops ++ extra)).totalJoyOf u)
    ∧ (∀ (ops : List Op) (op : Op) (u : Nat),
        (applyOp (runOps initState ops) op).totalJoyOf u
            = (runOps initState ops).totalJoyOf u
        ∨ ∃ i amt nt ad d, op = Op.approve i amt nt ad
            ∧ findDeposit (runOps initState ops) i = some d
            ∧ d.userId = u ∧ d.status = "pending"
            ∧ (applyOp (runOps initState ops) op).totalJoyOf u
                = (runOps initState ops).totalJoyOf u + d.joy_amount) := by
  constructor
  · intro ops extra u
    rw [runOps_append]
    exact totalJoyOf_runOps_mono extra u (joyInv_runOps ops joyInv_init)
  · intro ops op u
    exact totalJoyOf_change (runOps initState ops) op u

/- ## Signup page email check, modelled login, password validation -/

/-- The UI outcome of the signup page's checkEmail handler: the field error
message and whether the email passed the availability check. -/
structure CheckEmailUI where
  emailError : String
  emailChecked : Bool
  deriving Repr, DecidableEq

/-- Embeds checkEmail of the signup page: the GET /auth/check-email response
carries an exists flag; when it is true the page shows an "already in use"
error and clears the checked flag, otherwise it clears the error and marks
the email as checked. -/
def checkEmail (localeKo : Bool) (emailTaken : Bool) : CheckEmailUI :=
  if emailTaken then
    { emailError := if localeKo then "이미 사용 중인 이메일입니다." else "Email already in use.",
      emailChecked := false }
  else { emailError := "", emailChecked := true }

/-- Modelled from the spec: the absent backend's `login(email, password)`
(§4.1) issues a session credential on success and fails with a uniform
AuthError on mismatch, leaking nothing about whether the email exists. -/
def loginBackend (emailRegistered passwordCorrect : Bool) : Except String String :=
  if emailRegistered && passwordCorrect then .ok "access" else .error "AuthError"

/-- C5 counterexample: the signup page's email check, an output of the
authentication endpoints, differs between a registered and an unregistered
email, so the system does reveal whether a given email is registered. -/
theorem claim_C5_counterexample :
    checkEmail false true ≠ checkEmail false false
    ∧ (checkEmail false true).emailError = "Email already in use."
    ∧ (checkEmail false false).emailError = "" := by
  refine ⟨?_, rfl, rfl⟩
  decide

/-- C5 (amended): the login operation itself is uniform, every pair of failed
logins producing the identical AuthError whether the email is unknown or the
password wrong; but the /auth/check-email flow of the signup page
distinguishes registered from unregistered emails in both locales. -/
theorem claim_C5_login_uniform_check_email_leaks :
    (∀ r1 p1 r2 p2 : Bool, (r1 && p1) = false → (r2 && p2) = false →
        loginBackend r1 p1 = loginBackend r2 p2)
    ∧ loginBackend false true = .error "AuthError"
    ∧ loginBackend true false = .error "AuthError"
    ∧ (∀ lk : Bool, checkEmail lk true ≠ checkEmail lk false) := by
  refine ⟨?_, rfl, rfl, ?_⟩
  · intro r1 p1 r2 p2 h1 h2
    unfold loginBackend
    rw [h1, h2]
  · intro lk
    cases lk <;> decide

/-- Embeds the client-side validation at the head of handleSignup on the
signup page: reject when the confirmation differs, then reject passwords
shorter than 6 characters, otherwise proceed (no error). -/
def handleSignupValidate (password confirm : String) : Option String :=
  if password ≠ confirm then some "Passwords do not match."
  else if password.length < 6 then some "Password must be at least 6 characters."
  else none

/-- Embeds the client-side validation at the head of handleChangePassword on
the my page: reject when the confirmation differs, then reject new passwords
shorter than 6 characters, otherwise proceed (no error). -/
def handleChangePasswordValidate (newPassword confirmPassword : String) : Option String :=
  if newPassword ≠ confirmPassword then some "New passwords do not match."
  else if newPassword.length < 6 then some "Password must be at least 6 characters."
  else none

/-- C6: one canonical minimum password length, six characters, governs both
password-setting operations: with a matching confirmation, signup validation
passes exactly the passwords of length at least six, change-password
validation likewise, and the two policies agree on every password. -/
theorem claim_C6_single_min_password_length :
    (∀ pw c : String, handleSignupValidate pw c = none ↔ (pw = c ∧ 6 ≤ pw.length))
    ∧ (∀ np cp : String,
        handleChangePasswordValidate np cp = none ↔ (np = cp ∧ 6 ≤ np.length))
    ∧ (∀ pw : String,
        handleSignupValidate pw pw = none ↔ handleChangePasswordValidate pw pw = none) := by
  have hs : ∀ pw c : String,
      handleSignupValidate pw c = none ↔ (pw = c ∧ 6 ≤ pw.length) := by
    intro pw c
    unfold handleSignupValidate
    by_cases hne : pw ≠ c
    · rw [if_pos hne]
      constructor
      · intro h; cases h
      · intro h; exact absurd h.1 hne
    · rw [if_neg hne]
      push_neg at hne
      by_cases hlen : pw.length < 6
      · rw [if_pos hlen]
        constructor
        · intro h; cases h
        · intro h; omega
      · rw [if_neg hlen]
        constructor
        · intro _; exact ⟨hne, by omega⟩
        · intro _; rfl
  have hc : ∀ np cp : String,
      handleChangePasswordValidate np cp = none ↔ (np = cp ∧ 6 ≤ np.length) := by
    intro np cp
    unfold handleChangePasswordValidate
    by_cases hne : np ≠ cp
    · rw [if_pos hne]
      constructor
      · intro h; cases h
      · intro h; exact absurd h.1 hne
    · rw [if_neg hne]
      push_neg at hne
      by_cases hlen : np.length < 6
      · rw [if_pos hlen]
        constructor
        · intro h; cases h
        · intro h; omega
      · rw [if_neg hlen]
        constructor
        · intro _; exact ⟨hne, by omega⟩
        · intro _; rfl
  refine ⟨hs, hc, ?_⟩
  intro pw
  rw [hs pw pw, hc pw pw]

/- ## Buy page deposit submission guard -/

/-- What the buy page's handleDepositRequest does before any network call. -/
inductive DepositSubmit where
  | blocked
  | sent (chain : String) (amountUsdt : ℚ)
  deriving Repr, DecidableEq

/-- Embeds the guard at the head of handleDepositRequest on the buy page:
when the selected total is not positive the handler warns and returns without
issuing a request; otherwise it posts the selected chain and the total to
POST /deposits/request. -/
def handleDepositRequest (selectedChain : String) (totalUsdt : ℚ) : DepositSubmit :=
  if totalUsdt ≤ 0 then .blocked else .sent selectedChain totalUsdt

/-- C7: a submission with a non-positive total is blocked with a warning and
no deposit request is issued, a submission with a positive total posts the
request, and (in the modelled backend, given a configured positive rate) the
posted request is then created as a pending record. -/
theorem claim_C7_positive_total_precondition :
    (∀ (c : String) (t : ℚ), handleDepositRequest c t = .blocked ↔ t ≤ 0)
    ∧ (∀ (c : String) (t : ℚ), handleDepositRequest c t = .sent c t ↔ 0 < t)
    ∧ (∀ (st : SysState) (n u : Nat) (c : String) (t j : ℚ) (a : String),
        t ≤ 0 → ∃ e, createDepositRequest st n u c t j a = .error e)
    ∧ (∀ (st : SysState) (n u : Nat) (c : String) (t j : ℚ) (a : String),
        0 < t → 0 < j →
          ∃ p, createDepositRequest st n u c t j a = .ok p
            ∧ p.2.status = "pending") := by
  refine ⟨?_, ?_, ?_, ?_⟩
  · intro c t
    unfold handleDepositRequest
    by_cases ht : t ≤ 0
    · rw [if_pos ht]
      exact ⟨fun _ => ht, fun _ => rfl⟩
    · rw [if_neg ht]
      exact ⟨(fun h => by cases h), (fun h => absurd h ht)⟩
  · intro c t
    unfold handleDepositRequest
    by_cases ht : t ≤ 0
    · rw [if_pos ht]
      exact ⟨(fun h => by cases h), (fun h => absurd ht (not_le.mpr h))⟩
    · rw [if_neg ht]
      exact ⟨fun _ => lt_of_not_le ht, fun _ => rfl⟩
  · intro st n u c t j a ht
    refine ⟨"ValidationError", ?_⟩
    unfold createDepositRequest
    rw [if_pos ht]
  · intro st n u c t j a ht hj
    exact ⟨_, create_ok_of_pos st n u c t j a ht hj, rfl⟩

/- ## Chain option lists across entry points -/

/-- The chain buttons of the legacy buy page: TRC20, ERC20, BSC, Polygon. -/
def buyPageChainsLegacy : List String := ["TRC20", "ERC20", "BSC", "Polygon"]

/-- The chain ids of the cookie-auth buy page's chains array: Polygon,
Ethereum, TRON. -/
def buyPageChainIds : List String := ["Polygon", "Ethereum", "TRON"]

/-- The chain union type of the bearer-token createDepositRequest in the
api library: TRON or ETH. -/
def apiChainsTronEth : List String := ["TRON", "ETH"]

/-- The chain union type of the cookie-auth createDepositRequest in the api
library: Polygon, Ethereum or TRON. -/
def apiChainsCookie : List String := ["Polygon", "Ethereum", "TRON"]

/-- The chain union type of the four-chain api library variants (matching the
repository's database guide): TRC20, ERC20, BSC or Polygon. -/
def apiChainsFour : List String := ["TRC20", "ERC20", "BSC", "Polygon"]

/-- C8 counterexample: the chain value TRC20 is offered by the legacy buy
page but is not a possible chain of the cookie-auth buy page, so the set of
possible chain values is not one fixed set across entry points. -/
theorem claim_C8_counterexample :
    "TRC20" ∈ buyPageChainsLegacy
    ∧ "TRC20" ∉ buyPageChainIds
    ∧ buyPageChainsLegacy ≠ buyPageChainIds := by
  decide

/-- C8 (amended): the chain enums differ across entry points rather than
being one canonical set: the legacy buy page and the four-chain api variants
use TRC20/ERC20/BSC/Polygon, the cookie-auth buy page and cookie-auth api
use Polygon/Ethereum/TRON, and the bearer-token api accepts only TRON/ETH;
only the cookie-auth pair agree with each other. -/
theorem claim_C8_chain_enums_differ :
    buyPageChainsLegacy = apiChainsFour
    ∧ buyPageChainIds = apiChainsCookie
    ∧ buyPageChainsLegacy ≠ buyPageChainIds
    ∧ apiChainsTronEth ≠ apiChainsCookie
    ∧ apiChainsTronEth ≠ apiChainsFour
    ∧ "ETH" ∈ apiChainsTronEth
    ∧ "ETH" ∉ buyPageChainIds
    ∧ "ETH" ∉ apiChainsFour
    ∧ "Ethereum" ∈ buyPageChainIds
    ∧ "Ethereum" ∉ buyPageChainsLegacy := by
  decide

/- ## Email masking in the admin and sector dashboards -/

/-- JavaScript's String.split with a one-character separator, over a list of
characters: empty segments are preserved and a leading separator opens an
empty first segment, exactly as "a@b".split yields two parts and
"".split yields one empty part. -/
def jsSplitChar (sep : Char) : List Char → List (List Char)
  | [] => [[]]
  | c :: cs =>
    if c = sep then [] :: jsSplitChar sep cs
    else
      match jsSplitChar sep cs with
      | [] => [[c]]
      | h :: t => (c :: h) :: t

/-- Embeds maskEmail of the admin and sector dashboards: destructure the
split on the at sign into name and domain, keep the whole name when it has
at most two characters and its first two characters otherwise, then append
the three stars, the at sign and the domain; a missing second part renders
as the string undefined, as a JavaScript template renders undefined. -/
def maskEmail (email : List Char) : List Char :=
  let parts := jsSplitChar '@' email
  let name := parts.headD []
  let domain := (parts.get? 1).getD ("undefined".toList)
  (if name.length ≤ 2 then name else name.take 2) ++ ("***@".toList) ++ domain

lemma jsSplitChar_ne_nil (sep : Char) (l : List Char) : jsSplitChar sep l ≠ [] := by
  cases l with
  | nil => simp [jsSplitChar]
  | cons c cs =>
    unfold jsSplitChar
    by_cases h : c = sep
    · simp [h]
    · rw [if_neg h]
      cases jsSplitChar sep cs <;> simp

lemma jsSplitChar_head (sep : Char) (l : List Char) :
    (jsSplitChar sep l).headD [] = l.takeWhile (· ≠ sep) := by
  induction l with
  | nil => simp [jsSplitChar]
  | cons c cs ih =>
    unfold jsSplitChar
    by_cases h : c = sep
    · simp [h, List.takeWhile_cons]
    · rw [if_neg h]
      cases hres : jsSplitChar sep cs with
      | nil => exact absurd hres (jsSplitChar_ne_nil sep cs)
      | cons hd tl =>
        rw [hres] at ih
        simp only [List.headD_cons] at ih
        simp [List.takeWhile_cons, h, ih]

lemma jsSplitChar_second (sep : Char) (l : List Char) :
    (jsSplitChar sep l).get? 1
      = if sep ∈ l then some (((l.dropWhile (· ≠ sep)).drop 1).takeWhile (· ≠ sep))
        else none := by
  induction l with
  | nil => simp [jsSplitChar]
  | cons c cs ih =>
    unfold jsSplitChar
    by_cases h : c = sep
    · subst h
      rw [if_pos rfl, if_pos (List.mem_cons_self c cs)]
      have hd : (c :: cs).dropWhile (· ≠ c) = c :: cs := by
        rw [List.dropWhile_cons]
        simp
      rw [hd]
      simp only [List.drop_one, List.tail_cons]
      cases hres : jsSplitChar c cs with
      | nil => exact absurd hres (jsSplitChar_ne_nil c cs)
      | cons hd2 tl =>
        have := jsSplitChar_head c cs
        rw [hres] at this
        simp only [List.headD_cons] at this
        simp [this]
    · rw [if_neg h]
      have hmem : (sep ∈ c :: cs) ↔ (sep ∈ cs) := by
        constructor
        · intro hm
          rcases List.mem_cons.mp hm with hm | hm
          · exact absurd hm.symm h
          · exact hm
        · exact fun hm => List.mem_cons_of_mem c hm
      have hdw : (c :: cs).dropWhile (· ≠ sep) = cs.dropWhile (· ≠ sep) := by
        rw [List.dropWhile_cons]
        simp [h]
      cases hres : jsSplitChar sep cs with
      | nil => exact absurd hres (jsSplitChar_ne_nil sep cs)
      | cons hd2 tl =>
        rw [hres] at ih
        by_cases hm : sep ∈ cs
        · rw [if_pos ((hmem).mpr hm)]
          rw [if_pos hm] at ih
          rw [hdw]
          simpa using ih
        · rw [if_neg (fun hx => hm (hmem.mp hx))]
          rw [if_neg hm] at ih
          simpa using ih

lemma takeWhile_of_not_mem (email : List Char) (h : '@' ∉ email) :
    email.takeWhile (· ≠ '@') = email := by
  induction email with
  | nil => rfl
  | cons c cs ih =>
    have hc : c ≠ '@' := fun hc => h (hc ▸ List.mem_cons_self c cs)
    have hcs : '@' ∉ cs := fun hm => h (List.mem_cons_of_mem c hm)
    rw [List.takeWhile_cons, if_pos (by simp [hc]), ih hcs]

/-- C9 counterexample: on an input with two at signs the domain is not left
unmodified: maskEmail of ab at x at y keeps only the segment between the two
at signs, not the full domain after the first at sign as the claim states. -/
theorem claim_C9_counterexample :
    maskEmail ("ab@x@y".toList) = "ab***@x".toList
    ∧ '@' ∈ "ab@x@y".toList
    ∧ maskEmail ("ab@x@y".toList) ≠ "ab".toList ++ "***@".toList ++ "x@y".toList := by
  refine ⟨?_, ?_, ?_⟩ <;> decide

/-- C9 (amended): for an input containing an at sign, maskEmail keeps the
local part when it has at most two characters and its first two characters
otherwise, appends the three stars and the at sign, and then appends the
segment strictly between the first and second at sign (the whole remainder
when there is exactly one at sign) rather than the full domain; for an input
with no at sign it appends three stars, the at sign and the word undefined
to the truncated input instead of failing. -/
theorem claim_C9_maskEmail_characterization :
    ∀ email : List Char,
      (('@' ∈ email) →
        maskEmail email
          = (if (email.takeWhile (· ≠ '@')).length ≤ 2
              then email.takeWhile (· ≠ '@')
              else (email.takeWhile (· ≠ '@')).take 2)
            ++ "***@".toList
            ++ ((email.dropWhile (· ≠ '@')).drop 1).takeWhile (· ≠ '@'))
      ∧ (('@' ∉ email) →
        maskEmail email
          = (if email.length ≤ 2 then email else email.take 2)
            ++ "***@".toList ++ "undefined".toList) := by
  intro email
  constructor
  · intro hmem
    unfold maskEmail
    dsimp only
    rw [jsSplitChar_head, jsSplitChar_second, if_pos hmem]
    rfl
  · intro hmem
    unfold maskEmail
    dsimp only
    rw [jsSplitChar_head, jsSplitChar_second, if_neg hmem,
      takeWhile_of_not_mem email hmem]
    rfl

/- ## Buy page quantities and totals -/

/-- A product row of the buy page as far as the totals use it: id and USDT
price. -/
structure CatalogProduct where
  id : Nat
  price_usdt : ℚ
  deriving Repr, DecidableEq

/-- Embeds updateQuantity of the cookie-auth buy page: the clicked product's
quantity becomes the maximum of zero and its current value (defaulting to
zero) plus the delta; other quantities are untouched. -/
def updateQuantity (quantities : Nat → ℤ) (productId : Nat) (delta : ℤ) :
    Nat → ℤ :=
  fun i => if i = productId then max 0 (quantities i + delta) else quantities i

/-- A sequence of increment and decrement clicks applied in order. -/
def applyClicks (q : Nat → ℤ) (clicks : List (Nat × ℤ)) : Nat → ℤ :=
  clicks.foldl (fun qq c => updateQuantity qq c.1 c.2) q

/-- Embeds the totalUsdt reduce of the buy page: the sum over the products
of price times quantity (missing quantities defaulting to zero). -/
def totalUsdt (products : List CatalogProduct) (quantities : Nat → ℤ) : ℚ :=
  products.foldl (fun s p => s + p.price_usdt * (quantities p.id : ℚ)) 0

/-- Embeds totalJoy of the buy page: the USDT total times the loaded
JOY-per-USDT rate. -/
def totalJoy (products : List CatalogProduct) (quantities : Nat → ℤ)
    (joyPerUsdt : ℚ) : ℚ :=
  totalUsdt products quantities * joyPerUsdt

lemma foldl_add_eq_sum (l : List CatalogProduct) (f : CatalogProduct → ℚ)
    (init : ℚ) : l.foldl (fun s p => s + f p) init = init + (l.map f).sum := by
  induction l generalizing init with
  | nil => simp
  | cons a l ih => simp [List.foldl_cons, ih, add_assoc]

lemma updateQuantity_nonneg (q : Nat → ℤ) (pid : Nat) (delta : ℤ)
    (h : ∀ i, 0 ≤ q i) (i : Nat) : 0 ≤ updateQuantity q pid delta i := by
  unfold updateQuantity
  by_cases hi : i = pid
  · rw [if_pos hi]
    exact le_max_left 0 _
  · rw [if_neg hi]
    exact h i

lemma applyClicks_nonneg (clicks : List (Nat × ℤ)) (q : Nat → ℤ)
    (h : ∀ i, 0 ≤ q i) (i : Nat) : 0 ≤ applyClicks q clicks i := by
  induction clicks generalizing q with
  | nil => exact h i
  | cons c clicks ih =>
    exact ih (updateQuantity q c.1 c.2) (updateQuantity_nonneg q c.1 c.2 h) 

/-- C10: starting from all-zero quantities, any sequence of clicks leaves
every quantity nonnegative; a decrement at quantity zero leaves it at zero;
and the displayed totals satisfy totalUsdt equal to the sum over the products
of price times quantity and totalJoy equal to totalUsdt times the rate. -/
theorem claim_C10_quantities_and_totals :
    (∀ (clicks : List (Nat × ℤ)) (i : Nat),
        0 ≤ applyClicks (fun _ => 0) clicks i)
    ∧ (∀ (q : Nat → ℤ) (pid : Nat), q pid = 0 →
        updateQuantity q pid (-1) pid = 0)
    ∧ (∀ (ps : List CatalogProduct) (q : Nat → ℤ),
        totalUsdt ps q = (ps.map (fun p => p.price_usdt * (q p.id : ℚ))).sum)
    ∧ (∀ (ps : List CatalogProduct) (q : Nat → ℤ) (j : ℚ),
        totalJoy ps q j
          = (ps.map (fun p => p.price_usdt * (q p.id : ℚ))).sum * j) := by
  refine ⟨?_, ?_, ?_, ?_⟩
  · intro clicks i
    exact applyClicks_nonneg clicks (fun _ => 0) (fun _ => le_refl 0) i
  · intro q pid h
    unfold updateQuantity
    rw [if_pos rfl, h]
    decide
  · intro ps q
    unfold totalUsdt
    rw [foldl_add_eq_sum]
    rw [zero_add]
  · intro ps q j
    unfold totalJoy totalUsdt
    rw [foldl_add_eq_sum]
    rw [zero_add]
